import Mathlib

/-!
Verification of the schema-inference script `json_parser.py`.

The script reads `aircraft.json`, scans the array under the key `"aircraft"`,
accumulates the Python set `fields` of pairs `(field, str(type(value)))` and the
Python set `fields_unique` of field names found absent from some record, sorts
`fields` by field name and writes a Rust-style struct body to `fields.txt`.

The embedding below follows the script line by line.  Python sets are modelled
as duplicate-free lists; the algorithm reads them only through membership, and
the one place where the unspecified set iteration order is observable (the
stable sort of line 28 keeps equal-named pairs in iteration order) is modelled
by quantifying over every possible enumeration of the set (`validEnum`).
-/

namespace JsonSchemaInfer

/-- A JSON value as returned by the external JSON parser (`json.load`).
The script inspects values only through `type(...)`, so the payload of a
floating-point number is irrelevant and is omitted; objects keep the key order
of the document, as Python dicts do. -/
inductive JsonValue : Type where
  | str (s : String)
  | int (n : Int)
  | float
  | bool (b : Bool)
  | null
  | list (elems : List JsonValue)
  | dict (kvs : List (String × JsonValue))

/-- `str(type(v))` in Python: the printed form of the runtime type of a value. -/
def typeStr : JsonValue → String
  | .str _ => "<class \x27str\x27>"
  | .int _ => "<class \x27int\x27>"
  | .float => "<class \x27float\x27>"
  | .bool _ => "<class \x27bool\x27>"
  | .null => "<class \x27NoneType\x27>"
  | .list _ => "<class \x27list\x27>"
  | .dict _ => "<class \x27dict\x27>"

/-- Python `set.add`: a no-op when the element is already a member, otherwise
the element joins the set.  Sets are modelled as duplicate-free lists. -/
def setAdd {α : Type} [DecidableEq α] (l : List α) (a : α) : List α :=
  if a ∈ l then l else l ++ [a]

/-- The two accumulators of lines 13–14: the set `fields` of
`(field name, str(type))` pairs and the set `fields_unique` of field names seen
absent from some record. -/
structure InferState where
  fields : List (String × String)
  fields_unique : List String
deriving DecidableEq

/-- Body of the inner `for field in aircraft` loop (lines 17–25): when `fields`
is nonempty, every already-recorded field name that is not a key of the current
record `aircraft` is added to `fields_unique`; then the pair
`(field, str(type(aircraft[field])))` is added to `fields`.  A record is the
key/value list of a Python dict (keys are unique, order preserved), so the
value paired with `field` is `aircraft[field]`. -/
def processField (aircraft : List (String × JsonValue)) (st : InferState)
    (kv : String × JsonValue) : InferState :=
  let uniq :=
    if st.fields.length > 0 then
      st.fields.foldl
        (fun u p => if p.1 ∈ aircraft.map Prod.fst then u else setAdd u p.1)
        st.fields_unique
    else st.fields_unique
  { fields := setAdd st.fields (kv.1, typeStr kv.2), fields_unique := uniq }

/-- One iteration of the outer `for aircraft in data["aircraft"]` loop
(line 16): fold the inner loop over the record's fields in document order. -/
def processRecord (st : InferState) (aircraft : List (String × JsonValue)) :
    InferState :=
  aircraft.foldl (processField aircraft) st

/-- The whole inference loop (lines 13–25), starting from two empty sets. -/
def inferFields (records : List (List (String × JsonValue))) : InferState :=
  records.foldl processRecord ⟨[], []⟩

/-- The sort-key relation of line 28 (`key=lambda x: x[0]`): compare
observation pairs by field name only (lexicographically on code points, as
Python compares strings; stated on the character lists so that concrete sorts
reduce). -/
def byName (a b : String × String) : Prop := a.1.data ≤ b.1.data

instance : DecidableRel byName :=
  fun _ _ => inferInstanceAs (Decidable (_ ≤ _))

theorem byName_iff (a b : String × String) : byName a b ↔ a.1 ≤ b.1 := by
  rw [String.le_iff_toList_le]; exact Iff.rfl

instance : IsTotal (String × String) byName :=
  ⟨fun a b => by
    rcases le_total a.1 b.1 with h | h
    · exact Or.inl ((byName_iff a b).mpr h)
    · exact Or.inr ((byName_iff b a).mpr h)⟩

instance : IsTrans (String × String) byName :=
  ⟨fun a b c hab hbc => (byName_iff a c).mpr
    (le_trans ((byName_iff a b).mp hab) ((byName_iff b c).mp hbc))⟩

/-- Line 28, `sorted(fields, key=lambda x: x[0])`: a stable sort by field name
(Python's sort is stable; so is insertion sort). -/
def sortFields (l : List (String × String)) : List (String × String) :=
  List.insertionSort byName l

/-- The apostrophe character, the separator of `split("'")` on line 32. -/
def squote : Char := Char.ofNat 39

/-- Python `s.split(sep)` for a one-character separator: cut the text at every
occurrence of `c`.  (Structural recursion so that concrete runs reduce.) -/
def splitOnChar (c : Char) : List Char → List (List Char)
  | [] => [[]]
  | x :: xs =>
    if x = c then [] :: splitOnChar c xs
    else
      match splitOnChar c xs with
      | [] => [[x]]
      | y :: ys => (x :: y) :: ys

/-- Lines 32–42: take the bare type name out of `"<class '...'>"` via
`split("'")[1]` and map it to a target type name; any unmapped type name leaves
`type_of_field` unchanged.  (In the script the argument always has the
`str(type(...))` shape, so the index-1 access cannot fail; the embedding
defaults to `""` out of range.) -/
def mapType (type_of_field : String) : String :=
  let type_string :=
    ((splitOnChar squote type_of_field.data).map List.asString).getD 1 ""
  if type_string = "str" then "String"
  else if type_string = "int" then "i32"
  else if type_string = "float" then "f32"
  else if type_string = "dict" then "Vec<String>"
  else if type_string = "list" then "Vec<String>"
  else type_of_field

/-- Lines 43–47: the text written for one field.  An optional field gets the
serde attribute line and an `Option<...>` type, a required field a plain
declaration. -/
def renderField (field : String) (type_of_field : String) (optional : Bool) :
    String :=
  if optional then
    "#[serde(skip_serializing_if = \"Option::is_none\")]\n" ++
      "pub " ++ field ++ ": Option<" ++ type_of_field ++ ">,\n"
  else
    "pub " ++ field ++ ": " ++ type_of_field ++ ",\n"

/-- Lines 28–47: the full contents of `fields.txt`, given an enumeration `l`
of the `fields` set (Python set iteration order is unspecified, hence a
parameter) and the optional set `uniq`. -/
def renderAll (l : List (String × String)) (uniq : List String) : String :=
  (sortFields l).foldl
    (fun acc p => acc ++ renderField p.1 (mapType p.2) (decide (p.1 ∈ uniq))) ""

/-- The sequence of field names in output order. -/
def outputNames (l : List (String × String)) : List String :=
  (sortFields l).map Prod.fst

/-- `enum` is a possible iteration order of the Python set whose members are
those of `fs`: duplicate-free, with exactly the members of `fs`. -/
def validEnum (fs enum : List (String × String)) : Prop :=
  enum.Nodup ∧ (∀ p ∈ enum, p ∈ fs) ∧ (∀ p ∈ fs, p ∈ enum)

instance (fs enum : List (String × String)) : Decidable (validEnum fs enum) :=
  inferInstanceAs (Decidable (_ ∧ _ ∧ _))

/-- Failure of `open("aircraft.json")` (missing/unreadable file) or of
`json.load` (invalid JSON), lines 10–11.  Both raise uncaught exceptions. -/
inductive LoadErr : Type where
  | fileNotFound
  | invalidJson
deriving DecidableEq

/-- An uncaught Python exception aborting the run with a nonzero exit. -/
inductive ProgErr : Type where
  | load (e : LoadErr)
  | keyError
  | typeError
deriving DecidableEq

/-- Python dict lookup `data[key]` on the key/value list of a dict. -/
def lookupKey : List (String × JsonValue) → String → Option JsonValue
  | [], _ => none
  | (k, v) :: rest, key => if k = key then some v else lookupKey rest key

/-- `data["aircraft"]` (line 16) and the iteration over its elements: a
missing key raises `KeyError`; a non-dict document, a non-array value under
the key, or a non-dict record raises `TypeError` (the embedding folds the few
exotic iterable cases of Python into `typeError`; no claim depends on them). -/
def getRecords : JsonValue → Except ProgErr (List (List (String × JsonValue)))
  | .dict kvs =>
    match lookupKey kvs "aircraft" with
    | none => .error .keyError
    | some (.list xs) =>
      xs.mapM fun x =>
        match x with
        | .dict r => .ok r
        | _ => .error .typeError
    | some _ => .error .typeError
  | _ => .error .typeError

/-- The whole script: result of loading `aircraft.json` in, contents of
`fields.txt` out (errors model the uncaught exceptions).  The canonical set
enumeration (insertion order) is used for the write-out; claims touched by the
enumeration order quantify over `validEnum` instead. -/
def run (input : Except LoadErr JsonValue) : Except ProgErr String :=
  match input with
  | .error e => .error (.load e)
  | .ok data =>
    match getRecords data with
    | .error e => .error e
    | .ok records =>
      let st := inferFields records
      .ok (renderAll st.fields st.fields_unique)

/-! ### Helper lemmas about the accumulators -/

theorem mem_setAdd {α : Type} [DecidableEq α] (l : List α) (a b : α) :
    b ∈ setAdd l a ↔ b ∈ l ∨ b = a := by
  unfold setAdd
  split
  · rename_i h
    exact ⟨Or.inl, fun hb => hb.elim id fun e => e ▸ h⟩
  · simp

theorem nodup_setAdd {α : Type} [DecidableEq α] (l : List α) (a : α)
    (h : l.Nodup) : (setAdd l a).Nodup := by
  unfold setAdd
  split
  · exact h
  · rename_i ha
    simp [List.nodup_append, h, ha]

theorem fields_processField (aircraft : List (String × JsonValue))
    (st : InferState) (kv : String × JsonValue) :
    (processField aircraft st kv).fields = setAdd st.fields (kv.1, typeStr kv.2) :=
  rfl

theorem mem_fields_foldl_processField (aircraft : List (String × JsonValue))
    (l : List (String × JsonValue)) (st : InferState) (p : String × String) :
    p ∈ (l.foldl (processField aircraft) st).fields ↔
      p ∈ st.fields ∨ ∃ kv ∈ l, p = (kv.1, typeStr kv.2) := by
  induction l generalizing st with
  | nil => simp
  | cons kv rest ih =>
    rw [List.foldl_cons, ih, fields_processField, mem_setAdd]
    simp only [List.mem_cons]
    constructor
    · rintro (⟨h | h⟩ | ⟨x, hx, hp⟩)
      · exact Or.inl h
      · exact Or.inr ⟨kv, Or.inl rfl, h⟩
      · exact Or.inr ⟨x, Or.inr hx, hp⟩
    · rintro (h | ⟨x, hx | hx, hp⟩)
      · exact Or.inl (Or.inl h)
      · exact Or.inl (Or.inr (hx ▸ hp))
      · exact Or.inr ⟨x, hx, hp⟩

theorem nodup_fields_foldl_processField (aircraft : List (String × JsonValue))
    (l : List (String × JsonValue)) (st : InferState)
    (h : st.fields.Nodup) :
    (l.foldl (processField aircraft) st).fields.Nodup := by
  induction l generalizing st with
  | nil => exact h
  | cons kv rest ih =>
    rw [List.foldl_cons]
    exact ih _ (nodup_setAdd _ _ h)

theorem mem_fields_foldl_processRecord
    (records : List (List (String × JsonValue))) (st : InferState)
    (p : String × String) :
    p ∈ (records.foldl processRecord st).fields ↔
      p ∈ st.fields ∨ ∃ r ∈ records, ∃ kv ∈ r, p = (kv.1, typeStr kv.2) := by
  induction records generalizing st with
  | nil => simp
  | cons r rest ih =>
    rw [List.foldl_cons, ih]
    show _ ∈ (r.foldl (processField r) st).fields ∨ _ ↔ _
    rw [mem_fields_foldl_processField]
    simp only [List.mem_cons]
    constructor
    · rintro (⟨h | ⟨kv, hkv, hp⟩⟩ | ⟨x, hx, kv, hkv, hp⟩)
      · exact Or.inl h
      · exact Or.inr ⟨r, Or.inl rfl, kv, hkv, hp⟩
      · exact Or.inr ⟨x, Or.inr hx, kv, hkv, hp⟩
    · rintro (h | ⟨x, hx | hx, kv, hkv, hp⟩)
      · exact Or.inl (Or.inl h)
      · exact Or.inl (Or.inr ⟨kv, hx ▸ hkv, hp⟩)
      · exact Or.inr ⟨x, hx, kv, hkv, hp⟩

/-- The accumulated `fields` set holds exactly the `(name, str(type))` pairs
observed in some record. -/
theorem mem_fields_inferFields (records : List (List (String × JsonValue)))
    (p : String × String) :
    p ∈ (inferFields records).fields ↔
      ∃ r ∈ records, ∃ kv ∈ r, p = (kv.1, typeStr kv.2) := by
  rw [inferFields, mem_fields_foldl_processRecord]
  simp

theorem nodup_fields_foldl_processRecord
    (records : List (List (String × JsonValue))) (st : InferState)
    (h : st.fields.Nodup) :
    (records.foldl processRecord st).fields.Nodup := by
  induction records generalizing st with
  | nil => exact h
  | cons r rest ih =>
    rw [List.foldl_cons]
    exact ih _ (nodup_fields_foldl_processField r r st h)

/-- The accumulated `fields` set is duplicate-free (it models a Python set). -/
theorem nodup_fields_inferFields (records : List (List (String × JsonValue))) :
    (inferFields records).fields.Nodup :=
  nodup_fields_foldl_processRecord records ⟨[], []⟩ List.nodup_nil

/-! ### Helper lemmas about the sort and the write-out -/

theorem sortFields_perm (l : List (String × String)) : (sortFields l).Perm l :=
  List.perm_insertionSort byName l

theorem sortFields_sorted (l : List (String × String)) :
    (sortFields l).Sorted byName :=
  List.sorted_insertionSort byName l

/-- Two sorted pair lists that are permutations of one another and whose keys
are duplicate-free are equal: sorting by key alone has a unique result when no
key is repeated. -/
theorem eq_of_perm_sorted_keysNodup :
    ∀ {l₁ l₂ : List (String × String)}, l₁.Perm l₂ →
      l₁.Sorted byName → l₂.Sorted byName → (l₁.map Prod.fst).Nodup → l₁ = l₂ := by
  intro l₁
  induction l₁ with
  | nil =>
    intro l₂ hp _ _ _
    exact hp.nil_eq
  | cons a t ih =>
    intro l₂ hp h₁ h₂ hk
    cases l₂ with
    | nil => exact absurd (hp.symm.nil_eq) (by simp)
    | cons b t₂ =>
      have haIn : a ∈ b :: t₂ := hp.subset (List.mem_cons_self a t)
      have hbIn : b ∈ a :: t := hp.symm.subset (List.mem_cons_self b t₂)
      by_cases hab : a = b
      · subst hab
        have htp : t.Perm t₂ := hp.cons_inv
        have hkt : (t.map Prod.fst).Nodup := by
          rw [List.map_cons, List.nodup_cons] at hk
          exact hk.2
        rw [ih htp h₁.of_cons h₂.of_cons hkt]
      · have haT₂ : a ∈ t₂ := by
          rcases List.mem_cons.mp haIn with h | h
          · exact absurd h hab
          · exact h
        have hbT : b ∈ t := by
          rcases List.mem_cons.mp hbIn with h | h
          · exact absurd h.symm hab
          · exact h
        have h₁' : a.1 ≤ b.1 :=
          (byName_iff a b).mp (List.rel_of_sorted_cons h₁ b hbT)
        have h₂' : b.1 ≤ a.1 :=
          (byName_iff b a).mp (List.rel_of_sorted_cons h₂ a haT₂)
        have hkeys : a.1 = b.1 := le_antisymm h₁' h₂'
        rw [List.map_cons, List.nodup_cons] at hk
        exact absurd (hkeys ▸ List.mem_map_of_mem Prod.fst hbT) hk.1

/-- Two iteration orders of the same `fields` set whose field names are
duplicate-free sort to the same list. -/
theorem sortFields_eq_of_validEnum (fs e₁ e₂ : List (String × String))
    (h₁ : validEnum fs e₁) (h₂ : validEnum fs e₂)
    (hk : (fs.map Prod.fst).Nodup) : sortFields e₁ = sortFields e₂ := by
  have hfs : fs.Nodup := List.Nodup.of_map Prod.fst hk
  have pe₁ : e₁.Perm fs :=
    (List.perm_ext_iff_of_nodup h₁.1 hfs).mpr fun p =>
      ⟨fun hp => h₁.2.1 p hp, fun hp => h₁.2.2 p hp⟩
  have pe₂ : e₂.Perm fs :=
    (List.perm_ext_iff_of_nodup h₂.1 hfs).mpr fun p =>
      ⟨fun hp => h₂.2.1 p hp, fun hp => h₂.2.2 p hp⟩
  have hk₁ : (e₁.map Prod.fst).Nodup := ((pe₁.map Prod.fst).nodup_iff).mpr hk
  have hsp : (sortFields e₁).Perm (sortFields e₂) :=
    ((sortFields_perm e₁).trans (pe₁.trans pe₂.symm)).trans (sortFields_perm e₂).symm
  have hks : ((sortFields e₁).map Prod.fst).Nodup :=
    (((sortFields_perm e₁).map Prod.fst).nodup_iff).mpr hk₁
  exact eq_of_perm_sorted_keysNodup hsp (sortFields_sorted e₁) (sortFields_sorted e₂) hks

theorem outputNames_sorted_le (l : List (String × String)) :
    List.Sorted (· ≤ ·) (outputNames l) :=
  List.Pairwise.map Prod.fst (fun a b hab => (byName_iff a b).mp hab)
    (sortFields_sorted l)

theorem outputNames_nodup (l : List (String × String))
    (hk : (l.map Prod.fst).Nodup) : (outputNames l).Nodup :=
  (((sortFields_perm l).map Prod.fst).nodup_iff).mpr hk

theorem outputNames_sorted_lt (l : List (String × String))
    (hk : (l.map Prod.fst).Nodup) :
    List.Sorted (· < ·) (outputNames l) :=
  ((outputNames_sorted_le l).and (outputNames_nodup l hk)).imp
    fun h => lt_of_le_of_ne h.1 h.2

/-! ### The claims -/

/-- C1: the optionality-soundness iff fails on the code, against the script's
own line-6 comment ("if a field is not always present, tag it with
Optional").  On `{"aircraft":[{"b":"y"},{"a":2,"b":"y"}]}` the first record
lacks the field `a`, yet after the loop the optional set `fields_unique` is
empty and the run writes `a` in required form: a field name that at least one
record lacks is not marked optional. -/
theorem c1_optionality_code_bug :
    "a" ∉ ([("b", JsonValue.str "y")].map Prod.fst) ∧
    (inferFields [[("b", JsonValue.str "y")],
      [("a", JsonValue.int 2), ("b", JsonValue.str "y")]]).fields_unique = [] ∧
    run (.ok (.dict [("aircraft", .list [.dict [("b", .str "y")],
      .dict [("a", .int 2), ("b", .str "y")]])])) =
      .ok "pub a: i32,\npub b: String,\n" :=
  ⟨by decide, by decide, by rfl⟩

/-- C2: §8 scenario 3 fails on the code, against the script's line-6 comment.
On `{"aircraft":[{"b":"y"},{"a":2,"b":"y"}]}` the claim expects `a` as
Integer *optional*; the run instead writes both `a` and `b` in required form
(`pub a: i32,` then `pub b: String,`), with no serde attribute line at all. -/
theorem c2_scenario3_code_bug :
    run (.ok (.dict [("aircraft", .list [.dict [("b", .str "y")],
      .dict [("a", .int 2), ("b", .str "y")]])])) =
      .ok ("pub a: i32,\n" ++ "pub b: String,\n") := by rfl

/-- C3 counterexample: the observation set does NOT keep at most one type tag
per field name, and the last observed kind does not replace earlier ones.
After the records `[{"a":1.5},{"a":2}]` (a prefix of themselves) both the
float tag and the int tag of `a` are retained. -/
theorem c3_counterexample :
    (inferFields [[("a", JsonValue.float)], [("a", JsonValue.int 2)]]).fields =
      [("a", "<class \x27float\x27>"), ("a", "<class \x27int\x27>")] ∧
    ("a", "<class \x27float\x27>") ∈
      (inferFields [[("a", JsonValue.float)], [("a", JsonValue.int 2)]]).fields ∧
    ("a", "<class \x27int\x27>") ∈
      (inferFields [[("a", JsonValue.float)], [("a", JsonValue.int 2)]]).fields ∧
    ("<class \x27float\x27>" : String) ≠ "<class \x27int\x27>" :=
  ⟨by decide, by decide, by decide, by decide⟩

/-- C3 (amended): after processing any prefix of the records, the
field-observation set retains one entry per distinct (field name, observed
type) pair — a pair is a member exactly when some processed record maps that
name to a value of that runtime type, so when a field's kind differs across
records every observed kind is retained (no error raised, no overwriting). -/
theorem c3_fields_invariant (records : List (List (String × JsonValue)))
    (f t : String) :
    ((f, t) ∈ (inferFields records).fields ↔
      ∃ r ∈ records, ∃ kv ∈ r, kv.1 = f ∧ typeStr kv.2 = t) ∧
    (inferFields records).fields.Nodup := by
  refine ⟨?_, nodup_fields_inferFields records⟩
  rw [mem_fields_inferFields]
  constructor
  · rintro ⟨r, hr, kv, hkv, hp⟩
    exact ⟨r, hr, kv, hkv, ((Prod.mk.injEq _ _ _ _).mp hp).imp Eq.symm Eq.symm⟩
  · rintro ⟨r, hr, kv, hkv, h1, h2⟩
    exact ⟨r, hr, kv, hkv, by rw [h1, h2]⟩

/-- C4 counterexample: with records `[{"a":1.5},{"a":2}]` the field name `a`
appears twice in the output — once per retained type tag — not exactly once. -/
theorem c4_counterexample :
    outputNames (inferFields [[("a", JsonValue.float)],
      [("a", JsonValue.int 2)]]).fields = ["a", "a"] ∧
    (outputNames (inferFields [[("a", JsonValue.float)],
      [("a", JsonValue.int 2)]]).fields).count "a" = 2 :=
  ⟨by decide, by decide⟩

/-- C4 (amended): every field name appearing in any record appears in the
output, and it appears once per retained `(name, type)` observation — hence
exactly once when the field's value type never varies, but once per distinct
observed type otherwise. -/
theorem c4_completeness (records : List (List (String × JsonValue)))
    (name : String) :
    (name ∈ outputNames (inferFields records).fields ↔
      ∃ r ∈ records, ∃ kv ∈ r, kv.1 = name) ∧
    (outputNames (inferFields records).fields).count name =
      ((inferFields records).fields.filter (fun p => p.1 == name)).length := by
  constructor
  · rw [outputNames, List.mem_map]
    constructor
    · rintro ⟨p, hp, rfl⟩
      obtain ⟨r, hr, kv, hkv, hpe⟩ :=
        (mem_fields_inferFields records p).mp ((sortFields_perm _).subset hp)
      exact ⟨r, hr, kv, hkv, congrArg Prod.fst hpe.symm⟩
    · rintro ⟨r, hr, kv, hkv, rfl⟩
      refine ⟨(kv.1, typeStr kv.2), ?_, rfl⟩
      exact ((sortFields_perm _).mem_iff).mpr
        ((mem_fields_inferFields records _).mpr ⟨r, hr, kv, hkv, rfl⟩)
  · rw [outputNames, List.count_eq_countP, List.countP_map,
      (sortFields_perm _).countP_eq, List.countP_eq_length_filter]
    rfl

/-- C5 counterexample: on `{"aircraft":[{"b":"y"},{"a":1.5},{"a":2}]}` the
output names are `a, a, b` — ascending, but not strictly: the repeated `a`
makes two adjacent names equal. -/
theorem c5_counterexample :
    outputNames (inferFields [[("b", JsonValue.str "y")], [("a", JsonValue.float)],
      [("a", JsonValue.int 2)]]).fields = ["a", "a", "b"] ∧
    ¬ List.Sorted (· < ·)
      (outputNames (inferFields [[("b", JsonValue.str "y")],
        [("a", JsonValue.float)], [("a", JsonValue.int 2)]]).fields) := by
  have h : outputNames (inferFields [[("b", JsonValue.str "y")],
      [("a", JsonValue.float)], [("a", JsonValue.int 2)]]).fields =
      ["a", "a", "b"] := by decide
  refine ⟨h, ?_⟩
  rw [h]
  intro hs
  exact lt_irrefl "a" (List.rel_of_sorted_cons hs "a" (List.mem_cons_self _ _))

/-- C5 (amended): for every enumeration of the fields set the output names
are ascending (non-decreasing) lexicographically; they are strictly ascending
whenever no field name carries two distinct observed types (names pairwise
distinct in the set). -/
theorem c5_sorted (enum : List (String × String)) :
    List.Sorted (· ≤ ·) (outputNames enum) ∧
    ((enum.map Prod.fst).Nodup → List.Sorted (· < ·) (outputNames enum)) :=
  ⟨outputNames_sorted_le enum, fun hk => outputNames_sorted_lt enum hk⟩

/-- Witness for `c5_sorted` at a concrete enumeration with distinct names. -/
theorem c5_sorted_witness :
    (([("a", "<class \x27int\x27>"), ("b", "<class \x27str\x27>")].map
      (Prod.fst : String × String → String)).Nodup) ∧
    List.Sorted (· < ·)
      (outputNames [("a", "<class \x27int\x27>"), ("b", "<class \x27str\x27>")]) :=
  ⟨by decide, (c5_sorted _).2 (by decide)⟩

/-- The §4.1 mapping table exactly as claim C6 words it: the target type per
runtime value kind, defined on the kinds the table maps. -/
def claimMappedType : JsonValue → Option String
  | .str _ => some "String"
  | .int _ => some "i32"
  | .float => some "f32"
  | .dict _ => some "Vec<String>"
  | .list _ => some "Vec<String>"
  | _ => none

/-- C6: for every value kind the table maps, the script's per-field output is
exactly the claimed text: when the field is in the optional set, the serde
attribute line followed by `pub <field>: Option<<MappedType>>,`; otherwise
`pub <field>: <MappedType>,` — with MappedType String/i32/f32/Vec<String> for
str/int/float/dict-and-list values respectively. -/
theorem c6_code_format (uniq : List String) (field : String) (v : JsonValue)
    (mt : String) (h : claimMappedType v = some mt) :
    renderField field (mapType (typeStr v)) (decide (field ∈ uniq)) =
      if field ∈ uniq then
        "#[serde(skip_serializing_if = \"Option::is_none\")]\n" ++
          "pub " ++ field ++ ": Option<" ++ mt ++ ">,\n"
      else "pub " ++ field ++ ": " ++ mt ++ ",\n" := by
  have hmap : mapType (typeStr v) = mt := by
    cases v with
    | str s => injection h with h
    | int n => injection h with h
    | float => injection h with h
    | bool b => exact Option.noConfusion h
    | null => exact Option.noConfusion h
    | list es => injection h with h
    | dict kvs => injection h with h
  rw [hmap]
  by_cases hf : field ∈ uniq <;> simp [renderField, hf]

/-- Witness for `c6_code_format`: an int-valued optional field. -/
theorem c6_code_format_witness :
    claimMappedType (JsonValue.int 7) = some "i32" ∧
    renderField "alt" (mapType (typeStr (JsonValue.int 7)))
        (decide ("alt" ∈ (["alt"] : List String))) =
      if "alt" ∈ (["alt"] : List String) then
        "#[serde(skip_serializing_if = \"Option::is_none\")]\n" ++
          "pub " ++ "alt" ++ ": Option<" ++ "i32" ++ ">,\n"
      else "pub " ++ "alt" ++ ": " ++ "i32" ++ ",\n" :=
  ⟨rfl, c6_code_format ["alt"] "alt" (JsonValue.int 7) "i32" rfl⟩

/-- C7 counterexample: a boolean value matches no entry of the mapping table,
yet on `{"aircraft":[{"a":true}]}` the run does not fail — it succeeds and
emits a declaration for `a` carrying the raw Python type text. -/
theorem c7_counterexample :
    run (.ok (.dict [("aircraft", .list [.dict [("a", .bool true)]])])) =
      .ok "pub a: <class \x27bool\x27>,\n" := by rfl

/-- C7 (amended): an unmapped runtime kind (boolean or null) is not fatal in
code-annotation output: the field is emitted as usual with the raw
`str(type(...))` text standing in for the target type. -/
theorem c7_unmapped_not_fatal (field : String) (b : Bool) (opt : Bool) :
    renderField field (mapType (typeStr (JsonValue.bool b))) opt =
        renderField field (typeStr (JsonValue.bool b)) opt ∧
    renderField field (mapType (typeStr JsonValue.null)) opt =
        renderField field (typeStr JsonValue.null) opt :=
  ⟨rfl, rfl⟩

/-- C8 counterexample: the Python set iteration order is observable in the
output bytes.  For `{"aircraft":[{"a":1.5},{"a":2}]}` both lists below are
valid iteration orders of the accumulated `fields` set, yet they render
different files (the two `a` lines swap): a fixed input does not force
byte-identical output across runs. -/
theorem c8_counterexample :
    validEnum (inferFields [[("a", JsonValue.float)],
        [("a", JsonValue.int 2)]]).fields
      [("a", "<class \x27float\x27>"), ("a", "<class \x27int\x27>")] ∧
    validEnum (inferFields [[("a", JsonValue.float)],
        [("a", JsonValue.int 2)]]).fields
      [("a", "<class \x27int\x27>"), ("a", "<class \x27float\x27>")] ∧
    renderAll [("a", "<class \x27float\x27>"), ("a", "<class \x27int\x27>")]
        (inferFields [[("a", JsonValue.float)],
          [("a", JsonValue.int 2)]]).fields_unique ≠
      renderAll [("a", "<class \x27int\x27>"), ("a", "<class \x27float\x27>")]
        (inferFields [[("a", JsonValue.float)],
          [("a", JsonValue.int 2)]]).fields_unique :=
  ⟨by decide, by decide, by decide⟩

/-- C8 (amended): the output is byte-identical across runs provided no field
name is observed with two distinct types: any two iteration orders of the
`fields` set render the very same bytes when the set's field names are
duplicate-free (with a repeated name the relative order of its lines may
differ between runs, as the counterexample shows). -/
theorem c8_deterministic (fs : List (String × String)) (uniq : List String)
    (e₁ e₂ : List (String × String)) (h₁ : validEnum fs e₁)
    (h₂ : validEnum fs e₂) (hk : (fs.map Prod.fst).Nodup) :
    renderAll e₁ uniq = renderAll e₂ uniq := by
  unfold renderAll
  rw [sortFields_eq_of_validEnum fs e₁ e₂ h₁ h₂ hk]

/-- Witness for `c8_deterministic`: two different iteration orders of a
two-field set render identically. -/
theorem c8_deterministic_witness :
    validEnum [("a", "<class \x27int\x27>"), ("b", "<class \x27str\x27>")]
      [("a", "<class \x27int\x27>"), ("b", "<class \x27str\x27>")] ∧
    validEnum [("a", "<class \x27int\x27>"), ("b", "<class \x27str\x27>")]
      [("b", "<class \x27str\x27>"), ("a", "<class \x27int\x27>")] ∧
    (([("a", "<class \x27int\x27>"), ("b", "<class \x27str\x27>")].map
      (Prod.fst : String × String → String)).Nodup) ∧
    renderAll [("a", "<class \x27int\x27>"), ("b", "<class \x27str\x27>")] [] =
      renderAll [("b", "<class \x27str\x27>"), ("a", "<class \x27int\x27>")] [] :=
  ⟨by decide, by decide, by decide,
    c8_deterministic [("a", "<class \x27int\x27>"), ("b", "<class \x27str\x27>")] []
      [("a", "<class \x27int\x27>"), ("b", "<class \x27str\x27>")]
      [("b", "<class \x27str\x27>"), ("a", "<class \x27int\x27>")]
      (by decide) (by decide) (by decide)⟩

/-- C9: a load failure (file missing/unreadable, or invalid JSON) aborts the
run with an uncaught error; a parsed document lacking the `aircraft` key
aborts with an uncaught KeyError; and the empty aircraft array succeeds with
an empty output file. -/
theorem c9_fatal_errors :
    (∀ e : LoadErr, run (.error e) = .error (.load e)) ∧
    (∀ kvs : List (String × JsonValue), lookupKey kvs "aircraft" = none →
      run (.ok (.dict kvs)) = .error .keyError) ∧
    run (.ok (.dict [("aircraft", .list [])])) = .ok "" := by
  refine ⟨fun e => rfl, fun kvs h => ?_, rfl⟩
  simp [run, getRecords, h]

/-- Witness for `c9_fatal_errors`: both load failures, and a document whose
only key is `planes`. -/
theorem c9_fatal_errors_witness :
    run (.error .invalidJson) = .error (.load .invalidJson) ∧
    run (.error .fileNotFound) = .error (.load .fileNotFound) ∧
    lookupKey [("planes", JsonValue.list [])] "aircraft" = none ∧
    run (.ok (.dict [("planes", JsonValue.list [])])) = .error .keyError :=
  ⟨c9_fatal_errors.1 .invalidJson, c9_fatal_errors.1 .fileNotFound, rfl,
    c9_fatal_errors.2.1 _ rfl⟩

/-- C10: a record with zero fields contributes nothing to the optional set:
the absence check runs once per field of the current record, so on
`{"aircraft":[{"a":1},{}]}` the empty second record triggers no check,
`fields_unique` stays empty, and `a` is written as required. -/
theorem c10_empty_record :
    (inferFields [[("a", JsonValue.int 1)], []]).fields_unique = [] ∧
    run (.ok (.dict [("aircraft", .list [.dict [("a", .int 1)], .dict []])])) =
      .ok "pub a: i32,\n" :=
  ⟨by decide, by rfl⟩

end JsonSchemaInfer
